import Mathlib

/-!
Verification development for the `@carbonteq/fp` container library as
documented by this repository under `src/skills/fp/references/option.md`,
`src/skills/fp/references/result.md`, `src/skills/carbonteq-fp/SKILL.md`
(which inlines the Flow and Patterns references) and the example files.
The library's containers and generator engines are embedded shallowly:
`FpOption` / `FpResult` are the tagged unions, the combinators follow the
documented contracts and examples, and the generator engines (`Option.gen`,
`Result.gen`, `Flow.gen`) are modelled as resumable step sequences whose
run functions perform the documented unwrap-or-abort duty.
-/

variable {α β γ ε υ : Type}

/-- The `Option<T>` container of the library (option.md): a tagged union
with variants `Some(value)` and `None`. Named `FpOption` so it does not
clash with Lean's own option type. -/
inductive FpOption (α : Type) where
  | Some (value : α)
  | None
deriving DecidableEq, Repr

/-- The `Result<T, E>` container of the library (result.md): a tagged union
with variants `Ok(value)` and `Err(error)`. -/
inductive FpResult (α ε : Type) where
  | Ok (value : α)
  | Err (error : ε)
deriving DecidableEq, Repr

/-- `isSome()` type guard from option.md. -/
def FpOption.isSome : FpOption α → Bool
  | .Some _ => true
  | .None => false

/-- `isNone()` type guard from option.md. -/
def FpOption.isNone : FpOption α → Bool
  | .Some _ => false
  | .None => true

/-- `isOk()` type guard from result.md. -/
def FpResult.isOk : FpResult α ε → Bool
  | .Ok _ => true
  | .Err _ => false

/-- `isErr()` type guard from result.md. -/
def FpResult.isErr : FpResult α ε → Bool
  | .Ok _ => false
  | .Err _ => true

/-- `toResult(error)` from option.md: `Some(v) -> Ok(v)`, `None -> Err(error)`. -/
def FpOption.toResult (o : FpOption α) (err : ε) : FpResult α ε :=
  match o with
  | .Some v => .Ok v
  | .None => .Err err

/-- `toOption()` from result.md: `Ok(v) -> Some(v)`, `Err -> None`
(the error is discarded). -/
def FpResult.toOption : FpResult α ε → FpOption α
  | .Ok v => .Some v
  | .Err _ => .None

/-- `flatMap(fn)` from result.md: apply `fn` to the Ok value and return its
result directly; an `Err` propagates unchanged and `fn` is not invoked. -/
def FpResult.flatMap (r : FpResult α ε) (f : α → FpResult β ε) : FpResult β ε :=
  match r with
  | .Ok v => f v
  | .Err e => .Err e

/-- `zipErr(fn)` from result.md: on `Ok(v)` run the binder on `v`; if the
binder yields `Err(e2)` the overall result is `Err(e2)`, and if it yields
`Ok` the original `Ok(v)` is kept (the binder's success payload is
discarded). On `Err`, short-circuits without invoking the binder. -/
def FpResult.zipErr (r : FpResult α ε) (f : α → FpResult β ε) : FpResult α ε :=
  match r with
  | .Ok v =>
    match f v with
    | .Ok _ => .Ok v
    | .Err e2 => .Err e2
  | .Err e => .Err e

/-- The partial handler object accepted by `matchPartial` (result.md): an
optional `Ok` handler and an optional `Err` handler. -/
structure PartialHandlers (α ε β : Type) where
  Ok : Option (α → β)
  Err : Option (ε → β)

/-- `matchPartial({ Ok?, Err? }, getDefault)` from result.md: pattern match
with a subset of cases, using the default thunk for unhandled cases. -/
def FpResult.matchPartial (r : FpResult α ε) (h : PartialHandlers α ε β)
    (getDefault : Unit → β) : β :=
  match r with
  | .Ok v =>
    match h.Ok with
    | some f => f v
    | none => getDefault ()
  | .Err e =>
    match h.Err with
    | some f => f e
    | none => getDefault ()

/-- The loop body of `validate` (result.md): run each validator on the Ok
value in order, keeping the error of every validator that returns `Err`
and discarding the boolean success payloads. -/
def runValidators (v : α) : List (α → FpResult Bool ε) → List ε
  | [] => []
  | f :: fs =>
    match f v with
    | .Ok _ => runValidators v fs
    | .Err e => e :: runValidators v fs

/-- `validate([fn, ...])` from result.md: on `Err`, passes through untouched
(modelled as the left summand of the union error type `E | E[]`) and no
validator runs. On `Ok(v)`, runs every validator on `v`, collects all their
errors; zero errors gives back the original `Ok(v)`, otherwise `Err` of the
collected error sequence (the right summand). -/
def FpResult.validate (r : FpResult α ε) (vs : List (α → FpResult Bool ε)) :
    FpResult α (ε ⊕ List ε) :=
  match r with
  | .Err e => .Err (Sum.inl e)
  | .Ok v =>
    match runValidators v vs with
    | [] => .Ok v
    | es => .Err (Sum.inr es)

/-- `Option.all(...options)` from option.md: `Some` of all contained values
when every input is `Some`, else `None`; the recursion stops at the first
`None` without looking at the remaining inputs. -/
def FpOption.all : List (FpOption α) → FpOption (List α)
  | [] => .Some []
  | .None :: _ => .None
  | .Some v :: os =>
    match FpOption.all os with
    | .Some vs => .Some (v :: vs)
    | .None => .None

/-- `Option.any(...options)` from option.md: the first `Some` in input
order, or `None` when all inputs are `None`. -/
def FpOption.any : List (FpOption α) → FpOption α
  | [] => .None
  | .Some v :: _ => .Some v
  | .None :: os => FpOption.any os

/-- The collection loop of `Result.all` (result.md): walk every input,
splitting it into the success values and the error values, each preserved
in input order. -/
def collectResults : List (FpResult α ε) → List α × List ε
  | [] => ([], [])
  | .Ok v :: rs =>
    let p := collectResults rs
    (v :: p.1, p.2)
  | .Err e :: rs =>
    let p := collectResults rs
    (p.1, e :: p.2)

/-- `Result.all(...results)` from result.md: evaluates every input; `Ok` of
all success values when no error was found, else `Err` of every error value
found, in input order. `Result.all()` with no inputs gives `Ok([])`. -/
def FpResult.all (rs : List (FpResult α ε)) : FpResult (List α) (List ε) :=
  match (collectResults rs).2 with
  | [] => .Ok (collectResults rs).1
  | es => .Err es

/-- `Result.any(...results)` from result.md: the first `Ok` in input order
wins; when no input is `Ok`, `Err` collecting every error in input order. -/
def FpResult.any : List (FpResult α ε) → FpResult α (List ε)
  | [] => .Err []
  | .Ok v :: _ => .Ok v
  | .Err e :: rs =>
    match FpResult.any rs with
    | .Ok v => .Ok v
    | .Err es => .Err (e :: es)

/-- The success values of a list of Results, in input order (used to state
the `Result.all` contract in the claims' words). -/
def oksOf (rs : List (FpResult α ε)) : List α :=
  rs.filterMap fun r =>
    match r with
    | .Ok v => some v
    | .Err _ => none

/-- The error values of a list of Results, in input order (the collection
order documented for `Result.all`). -/
def errsOf (rs : List (FpResult α ε)) : List ε :=
  rs.filterMap fun r =>
    match r with
    | .Ok _ => none
    | .Err e => some e

/-- The errors collected by `validate` on a success value, stated in the
claim's words: the error of every validator that returns `Err`, in
validator order. -/
def validatorErrs (v : α) (vs : List (α → FpResult Bool ε)) : List ε :=
  vs.filterMap fun f =>
    match f v with
    | .Ok _ => none
    | .Err e => some e

/-- The three contract-violation error classes of the unwrap family
(result.md, option.md): `UnwrappedNone`, `UnwrappedOkWithErr`,
`UnwrappedErrWithOk`. -/
inductive ContractErrorClass where
  | UnwrappedNone
  | UnwrappedOkWithErr
  | UnwrappedErrWithOk
deriving DecidableEq, Repr

/-- The unwrap family of contract-violation error classes. -/
def unwrapFamily : List ContractErrorClass :=
  [.UnwrappedNone, .UnwrappedOkWithErr, .UnwrappedErrWithOk]

/-- `Option.unwrap()` from option.md: the contained value, or a thrown
`UnwrappedNone` on `None`. -/
def FpOption.unwrap : FpOption α → Except ContractErrorClass α
  | .Some v => .ok v
  | .None => .error .UnwrappedNone

/-- A value thrown by `Result.unwrap()` (result.md): either the contained
error re-thrown directly (when the error extends `Error`), or a
contract-violation wrapper of a given class carrying the error. -/
inductive UnwrapThrown (ε : Type) where
  | rethrown (e : ε)
  | wrapped (c : ContractErrorClass) (carried : ε)
deriving DecidableEq, Repr

/-- `Result.unwrap()` from result.md: the Ok value, or a failure on
`Err(e)` — `e` re-thrown directly when it is an Error-kind value (the host
test `e instanceof Error` is passed in as `isErrorLike`), otherwise an
`UnwrappedOkWithErr` wrapper carrying `e`. -/
def FpResult.unwrap (isErrorLike : ε → Bool) : FpResult α ε → Except (UnwrapThrown ε) α
  | .Ok v => .ok v
  | .Err e =>
    if isErrorLike e then .error (.rethrown e)
    else .error (.wrapped .UnwrappedOkWithErr e)

/-- A resumable Option step sequence, the direct-discipline generator of
`Option.gen` (option.md): each suspension point yields one `FpOption` and
receives the unwrapped payload to resume with. -/
inductive OptGen (υ α : Type) where
  | ret (a : α)
  | yieldStep (o : FpOption υ) (k : υ → OptGen υ α)

/-- The `Option.gen` engine (option.md): inspect each yielded container,
resume with the unwrapped value on `Some`, and abort the whole sequence
with `None` on the first `None` — the continuation after the failing yield
is never invoked. -/
def OptGen.run : OptGen υ α → FpOption α
  | .ret a => .Some a
  | .yieldStep (.Some v) k => OptGen.run (k v)
  | .yieldStep .None _ => .None

/-- The `Option.gen` engine instrumented with a side-effect counter that
increments once for every yield expression actually evaluated. -/
def OptGen.runCount : OptGen υ α → Nat × FpOption α
  | .ret a => (0, .Some a)
  | .yieldStep (.Some v) k =>
    let p := OptGen.runCount (k v)
    (p.1 + 1, p.2)
  | .yieldStep .None _ => (1, .None)

/-- Build the straight-line Option sequence that yields the given
containers in order and returns the given function of the collected
payloads, like the generator bodies in option.md's examples. -/
def OptGen.ofList : List (FpOption υ) → (List υ → α) → OptGen υ α
  | [], f => .ret (f [])
  | o :: os, f => .yieldStep o (fun v => OptGen.ofList os fun vs => f (v :: vs))

/-- A resumable Result step sequence, the direct-discipline generator of
`Result.gen` (result.md). -/
inductive ResGen (υ ε α : Type) where
  | ret (a : α)
  | yieldStep (r : FpResult υ ε) (k : υ → ResGen υ ε α)

/-- The `Result.gen` engine (result.md): resume with the unwrapped value on
`Ok`, abort with that exact `Err` on the first `Err` encountered. -/
def ResGen.run : ResGen υ ε α → FpResult α ε
  | .ret a => .Ok a
  | .yieldStep (.Ok v) k => ResGen.run (k v)
  | .yieldStep (.Err e) _ => .Err e

/-- The `Result.gen` engine instrumented with a counter of evaluated yield
expressions. -/
def ResGen.runCount : ResGen υ ε α → Nat × FpResult α ε
  | .ret a => (0, .Ok a)
  | .yieldStep (.Ok v) k =>
    let p := ResGen.runCount (k v)
    (p.1 + 1, p.2)
  | .yieldStep (.Err e) _ => (1, .Err e)

/-- Build the straight-line Result sequence yielding the given containers
in order. -/
def ResGen.ofList : List (FpResult υ ε) → (List υ → α) → ResGen υ ε α
  | [], f => .ret (f [])
  | r :: rs, f => .yieldStep r (fun v => ResGen.ofList rs fun vs => f (v :: vs))

/-- A value occupying the error channel of a Flow outcome: either an
instance of one of the contract-violation classes (SKILL.md: a yielded
`Option.None` short-circuits to `Result.Err(new UnwrappedNone())`) or a
user-supplied error value (from a yielded `Err` or a custom abort). -/
inductive FlowErrVal (ε : Type) where
  | contract (c : ContractErrorClass)
  | user (e : ε)
deriving DecidableEq, Repr

/-- A resumable Flow step sequence (SKILL.md Flow reference): suspension
points may yield an `Option` step or a `Result` step, and the sequence may
raise a custom abort value directly (`FlowError` / `$.fail`). -/
inductive FlowProg (υ ε α : Type) where
  | ret (a : α)
  | yieldOpt (o : FpOption υ) (k : υ → FlowProg υ ε α)
  | yieldRes (r : FpResult υ ε) (k : υ → FlowProg υ ε α)
  | raise (e : ε)

/-- The `Flow.gen` engine (SKILL.md Flow reference): unwrap successes and
resume; abort on the first failure — a yielded `None` gives
`Err(new UnwrappedNone())`, a yielded `Err(e)` gives that `Err(e)`, and a
raised custom value `v` gives `Err(v)`. A run to completion gives `Ok` of
the sequence's return value. -/
def FlowProg.run : FlowProg υ ε α → FpResult α (FlowErrVal ε)
  | .ret a => .Ok a
  | .yieldOpt (.Some v) k => FlowProg.run (k v)
  | .yieldOpt .None _ => .Err (.contract .UnwrappedNone)
  | .yieldRes (.Ok v) k => FlowProg.run (k v)
  | .yieldRes (.Err e) _ => .Err (.user e)
  | .raise e => .Err (.user e)

/-- One step of a straight-line Flow sequence: an Option yield, a Result
yield, or a direct custom abort. -/
inductive FlowStep (υ ε : Type) where
  | opt (o : FpOption υ)
  | res (r : FpResult υ ε)
  | abort (e : ε)

/-- Build the straight-line Flow sequence that performs the given steps in
order and returns the given function of the collected payloads. -/
def FlowProg.ofSteps : List (FlowStep υ ε) → (List υ → α) → FlowProg υ ε α
  | [], f => .ret (f [])
  | .opt o :: ss, f => .yieldOpt o (fun v => FlowProg.ofSteps ss fun vs => f (v :: vs))
  | .res r :: ss, f => .yieldRes r (fun v => FlowProg.ofSteps ss fun vs => f (v :: vs))
  | .abort e :: _, _ => .raise e

/-- Whether a Flow step carries a success container (a `Some` or an `Ok`),
so the engine resumes past it. -/
def FlowStep.succeeds : FlowStep υ ε → Bool
  | .opt (.Some _) => true
  | .res (.Ok _) => true
  | _ => false

/-- The failure signal of a Flow step, when it has one, mapped to the abort
outcome documented in SKILL.md: `None ↦ new UnwrappedNone()`,
`Err(e) ↦ e`, custom abort `v ↦ v`. -/
def FlowStep.failSignal : FlowStep υ ε → Option (FlowErrVal ε)
  | .opt .None => some (.contract .UnwrappedNone)
  | .res (.Err e) => some (.user e)
  | .abort e => some (.user e)
  | _ => none

/-- The validator list from the spec's testable property for `validate`:
positivity, upper bound 100, and evenness, with the documented messages. -/
def exampleValidators : List (Int → FpResult Bool String) :=
  [fun x => if x > 0 then .Ok true else .Err ("must be positive"),
   fun x => if x < 100 then .Ok true else .Err ("must be < 100"),
   fun x => if x % 2 = 0 then .Ok true else .Err ("must be even")]

theorem collectResults_eq (rs : List (FpResult α ε)) :
    collectResults rs = (oksOf rs, errsOf rs) := by
  induction rs with
  | nil => rfl
  | cons r rs ih =>
    cases r with
    | Ok v => simp [collectResults, oksOf, errsOf, List.filterMap_cons] at ih ⊢; simp [ih]
    | Err e => simp [collectResults, oksOf, errsOf, List.filterMap_cons] at ih ⊢; simp [ih]

theorem errsOf_eq_nil (rs : List (FpResult α ε)) :
    errsOf rs = [] ↔ ∀ r ∈ rs, r.isOk = true := by
  induction rs with
  | nil => simp [errsOf]
  | cons r rs ih =>
    cases r with
    | Ok v => simpa [errsOf, List.filterMap_cons, FpResult.isOk] using ih
    | Err e => simp [errsOf, List.filterMap_cons, FpResult.isOk]

theorem runValidators_eq (v : α) (vs : List (α → FpResult Bool ε)) :
    runValidators v vs = validatorErrs v vs := by
  induction vs with
  | nil => rfl
  | cons f fs ih =>
    cases hf : f v with
    | Ok b => simp [runValidators, validatorErrs, List.filterMap_cons, hf] at ih ⊢; exact ih
    | Err e => simp [runValidators, validatorErrs, List.filterMap_cons, hf] at ih ⊢; exact ih

theorem option_all_map_some (vs : List α) :
    FpOption.all (vs.map FpOption.Some) = FpOption.Some vs := by
  induction vs with
  | nil => rfl
  | cons v t ih => simp [FpOption.all, ih]

theorem option_all_some_inv (os : List (FpOption α)) (ws : List α)
    (h : FpOption.all os = FpOption.Some ws) : os = ws.map FpOption.Some := by
  induction os generalizing ws with
  | nil =>
    simp [FpOption.all] at h
    subst h
    rfl
  | cons o t ih =>
    cases o with
    | None => simp [FpOption.all] at h
    | Some v =>
      cases hall : FpOption.all t with
      | Some vs =>
        simp [FpOption.all, hall] at h
        subst h
        simp [ih vs hall]
      | None => simp [FpOption.all, hall] at h

theorem option_all_none_mem (l1 l2 : List (FpOption α)) :
    FpOption.all (l1 ++ FpOption.None :: l2) = FpOption.None := by
  induction l1 with
  | nil => rfl
  | cons o t ih =>
    cases o with
    | Some v => simp [FpOption.all, ih]
    | None => rfl

theorem result_any_skips_err_run (es : List ε) (v : α) (l2 : List (FpResult α ε)) :
    FpResult.any (es.map FpResult.Err ++ FpResult.Ok v :: l2) = FpResult.Ok v := by
  induction es with
  | nil => rfl
  | cons e t ih => simp [FpResult.any, ih]

theorem result_any_all_err (es : List ε) :
    FpResult.any (es.map FpResult.Err) = (FpResult.Err es : FpResult α (List ε)) := by
  induction es with
  | nil => rfl
  | cons e t ih => simp [FpResult.any, ih]

theorem optGen_runCount_snd (g : OptGen υ α) : (OptGen.runCount g).2 = OptGen.run g := by
  induction g with
  | ret a => rfl
  | yieldStep o k ih =>
    cases o with
    | Some v => simpa [OptGen.runCount, OptGen.run] using ih v
    | None => rfl

theorem resGen_runCount_snd (g : ResGen υ ε α) : (ResGen.runCount g).2 = ResGen.run g := by
  induction g with
  | ret a => rfl
  | yieldStep r k ih =>
    cases r with
    | Ok v => simpa [ResGen.runCount, ResGen.run] using ih v
    | Err e => rfl

theorem optGen_countList (l1 : List (FpOption υ)) (h : ∀ o ∈ l1, FpOption.isSome o = true)
    (l2 : List (FpOption υ)) (f : List υ → α) :
    OptGen.runCount (OptGen.ofList (l1 ++ FpOption.None :: l2) f) =
      (l1.length + 1, FpOption.None) := by
  induction l1 generalizing f with
  | nil => rfl
  | cons o t ih =>
    cases o with
    | Some v =>
      have ht : ∀ o ∈ t, FpOption.isSome o = true := fun o ho => h o (List.mem_cons_of_mem _ ho)
      simp [OptGen.ofList, OptGen.runCount, ih ht]
    | None =>
      have := h FpOption.None (List.mem_cons_self _ _)
      simp [FpOption.isSome] at this

theorem resGen_countList (m1 : List (FpResult υ ε)) (h : ∀ r ∈ m1, FpResult.isOk r = true)
    (e : ε) (m2 : List (FpResult υ ε)) (g : List υ → α) :
    ResGen.runCount (ResGen.ofList (m1 ++ FpResult.Err e :: m2) g) =
      (m1.length + 1, FpResult.Err e) := by
  induction m1 generalizing g with
  | nil => rfl
  | cons r t ih =>
    cases r with
    | Ok v =>
      have ht : ∀ r ∈ t, FpResult.isOk r = true := fun r hr => h r (List.mem_cons_of_mem _ hr)
      simp [ResGen.ofList, ResGen.runCount, ih ht]
    | Err e0 =>
      have := h (FpResult.Err e0) (List.mem_cons_self _ _)
      simp [FpResult.isOk] at this

theorem flow_run_fail (l1 : List (FlowStep υ ε)) (hsucc : ∀ st ∈ l1, FlowStep.succeeds st = true)
    (s : FlowStep υ ε) (w : FlowErrVal ε) (hs : FlowStep.failSignal s = some w)
    (l2 : List (FlowStep υ ε)) (f : List υ → α) :
    FlowProg.run (FlowProg.ofSteps (l1 ++ s :: l2) f) = FpResult.Err w := by
  induction l1 generalizing f with
  | nil =>
    cases s with
    | opt o =>
      cases o with
      | Some v => simp [FlowStep.failSignal] at hs
      | None =>
        simp [FlowStep.failSignal] at hs
        subst hs
        rfl
    | res r =>
      cases r with
      | Ok v => simp [FlowStep.failSignal] at hs
      | Err e =>
        simp [FlowStep.failSignal] at hs
        subst hs
        rfl
    | abort e =>
      simp [FlowStep.failSignal] at hs
      subst hs
      rfl
  | cons st t ih =>
    have hst := hsucc st (List.mem_cons_self _ _)
    have ht : ∀ x ∈ t, FlowStep.succeeds x = true := fun x hx => hsucc x (List.mem_cons_of_mem _ hx)
    cases st with
    | opt o =>
      cases o with
      | Some v => simpa [FlowProg.ofSteps, FlowProg.run] using ih ht (fun vs => f (v :: vs))
      | None => simp [FlowStep.succeeds] at hst
    | res r =>
      cases r with
      | Ok v => simpa [FlowProg.ofSteps, FlowProg.run] using ih ht (fun vs => f (v :: vs))
      | Err e => simp [FlowStep.succeeds] at hst
    | abort e => simp [FlowStep.succeeds] at hst

/-- Claim C1 (amended): in every Flow sequence, the first failure signal
encountered determines the overall outcome: after any prefix of success
steps, a yielded `None` aborts with `Err` of the `UnwrappedNone` contract
error instance (the same error class `Option.unwrap` raises on `None`, not
a distinguished absence error), a yielded `Err(e)` aborts with `Err(e)`
carrying the same error value, and an explicitly raised custom abort value
`v` aborts with `Err(v)`; later steps never influence the outcome. -/
theorem flow_first_failure_short_circuits :
    ∀ (l1 : List (FlowStep υ ε)) (s : FlowStep υ ε) (l2 : List (FlowStep υ ε))
      (f : List υ → α) (w : FlowErrVal ε) (e : ε),
      ((∀ st ∈ l1, FlowStep.succeeds st = true) → FlowStep.failSignal s = some w →
        FlowProg.run (FlowProg.ofSteps (l1 ++ s :: l2) f) = FpResult.Err w) ∧
      FlowStep.failSignal (FlowStep.opt FpOption.None : FlowStep υ ε) =
        some (FlowErrVal.contract ContractErrorClass.UnwrappedNone) ∧
      FlowStep.failSignal (FlowStep.res (FpResult.Err e) : FlowStep υ ε) =
        some (FlowErrVal.user e) ∧
      FlowStep.failSignal (FlowStep.abort e : FlowStep υ ε) = some (FlowErrVal.user e) ∧
      FpOption.unwrap (FpOption.None : FpOption υ) =
        Except.error ContractErrorClass.UnwrappedNone ∧
      ContractErrorClass.UnwrappedNone ∈ unwrapFamily :=
  fun l1 s l2 f w e =>
    ⟨fun hsucc hs => flow_run_fail l1 hsucc s w hs l2 f, rfl, rfl, rfl, rfl, by decide⟩

/-- Claim C1 witness: the Flow from flow-workflow.ts that yields
`Some(1)`, then `None`, then `Some(3)` aborts with the `UnwrappedNone`
contract error, and a Result-step Flow aborts with the yielded error. -/
theorem flow_first_failure_short_circuits_witness :
    FlowProg.run (FlowProg.ofSteps
      ([FlowStep.opt (FpOption.Some 1), FlowStep.opt FpOption.None,
        FlowStep.opt (FpOption.Some 3)] : List (FlowStep Nat Nat))
      (fun vs => vs.sum)) =
      FpResult.Err (FlowErrVal.contract ContractErrorClass.UnwrappedNone) ∧
    FlowProg.run (FlowProg.ofSteps
      ([FlowStep.opt (FpOption.Some 1), FlowStep.res (FpResult.Err 7),
        FlowStep.opt (FpOption.Some 3)] : List (FlowStep Nat Nat))
      (fun vs => vs.sum)) = FpResult.Err (FlowErrVal.user 7) := by
  have h1 := flow_first_failure_short_circuits
    ([FlowStep.opt (FpOption.Some 1)] : List (FlowStep Nat Nat))
    (FlowStep.opt FpOption.None) [FlowStep.opt (FpOption.Some 3)]
    (fun vs => vs.sum) (FlowErrVal.contract ContractErrorClass.UnwrappedNone) 0
  have h2 := flow_first_failure_short_circuits
    ([FlowStep.opt (FpOption.Some 1)] : List (FlowStep Nat Nat))
    (FlowStep.res (FpResult.Err 7)) [FlowStep.opt (FpOption.Some 3)]
    (fun vs => vs.sum) (FlowErrVal.user 7) 0
  exact ⟨h1.1 (by decide) rfl, h2.1 (by decide) rfl⟩

/-- Claim C1 counterexample to the claim as stated: in the concrete Flow
yielding `Some(1)` then `None`, the abort error produced for the yielded
`None` is precisely the `UnwrappedNone` contract-violation instance — the
very value `Option.unwrap` raises on `None` and a member of the unwrap
family — refuting the claim's final clause that the absence error is
distinguished from the unwrap-family contract-violation errors. -/
theorem flow_none_abort_counterexample :
    FlowProg.run (FlowProg.ofSteps
      ([FlowStep.opt (FpOption.Some 1), FlowStep.opt FpOption.None] : List (FlowStep Nat Nat))
      (fun vs => vs.sum)) =
      FpResult.Err (FlowErrVal.contract ContractErrorClass.UnwrappedNone) ∧
    FpOption.unwrap (FpOption.None : FpOption Nat) =
      Except.error ContractErrorClass.UnwrappedNone ∧
    ContractErrorClass.UnwrappedNone ∈ unwrapFamily :=
  ⟨rfl, rfl, by decide⟩

/-- Claim C2: in a direct-discipline generator sequence, the first yielded
container in its failure variant terminates the sequence immediately with
that exact failure container (`None` for an Option sequence, the same
`Err` for a Result sequence); the instrumented engines show that exactly
the yields up to and including the failing one are evaluated (the
side-effect counter reads the prefix length plus one), independently of
everything after the failing yield. -/
theorem gen_first_failure_terminates :
    ∀ (l1 l2 : List (FpOption υ)) (f : List υ → α)
      (m1 : List (FpResult υ ε)) (e : ε) (m2 : List (FpResult υ ε)) (g : List υ → α),
      ((∀ o ∈ l1, FpOption.isSome o = true) →
        OptGen.run (OptGen.ofList (l1 ++ FpOption.None :: l2) f) = FpOption.None ∧
        OptGen.runCount (OptGen.ofList (l1 ++ FpOption.None :: l2) f) =
          (l1.length + 1, FpOption.None)) ∧
      ((∀ r ∈ m1, FpResult.isOk r = true) →
        ResGen.run (ResGen.ofList (m1 ++ FpResult.Err e :: m2) g) = FpResult.Err e ∧
        ResGen.runCount (ResGen.ofList (m1 ++ FpResult.Err e :: m2) g) =
          (m1.length + 1, FpResult.Err e)) := by
  intro l1 l2 f m1 e m2 g
  constructor
  · intro h
    have hc := optGen_countList l1 h l2 f
    refine ⟨?_, hc⟩
    rw [← optGen_runCount_snd, hc]
  · intro h
    have hc := resGen_countList m1 h e m2 g
    refine ⟨?_, hc⟩
    rw [← resGen_runCount_snd, hc]

/-- Claim C2 witness: the sequence yielding `Some(1)`, `None`, `Some(3)`
produces `None` with exactly two evaluated yields, and the Result sequence
yielding `Ok(1)`, `Err("boom")`, `Ok(3)` produces that same `Err` with two
evaluated yields. -/
theorem gen_first_failure_terminates_witness :
    OptGen.run (OptGen.ofList [FpOption.Some 1, FpOption.None, FpOption.Some 3]
      (fun vs => vs.sum)) = FpOption.None ∧
    OptGen.runCount (OptGen.ofList [FpOption.Some 1, FpOption.None, FpOption.Some 3]
      (fun vs => vs.sum)) = (2, FpOption.None) ∧
    ResGen.run (ResGen.ofList
      ([FpResult.Ok 1, FpResult.Err ("boom"), FpResult.Ok 3] : List (FpResult Nat String))
      (fun vs => vs.sum)) = FpResult.Err ("boom") := by
  have h := gen_first_failure_terminates [FpOption.Some 1] [FpOption.Some 3]
    (fun vs : List Nat => vs.sum)
    ([FpResult.Ok 1] : List (FpResult Nat String)) ("boom") [FpResult.Ok 3]
    (fun vs : List Nat => vs.sum)
  have h1 := h.1 (by decide)
  have h2 := h.2 (by decide)
  exact ⟨h1.1, h1.2, h2.1⟩

/-- Claim C3: `Result.all` does not short-circuit — when every input is
`Ok` it returns `Ok` of all success values, otherwise it returns `Err` of
every error value found among the inputs, in input order, and with no
arguments it returns `Ok([])`; by contrast a `flatMap` chain stops at the
first `Err`: for every second step `g`, chaining after the first `Err("a")`
still yields `Err("a")` only. -/
theorem result_all_collects_every_error :
    ∀ (rs : List (FpResult α ε)) (g : Nat → FpResult Nat String),
      FpResult.all ([] : List (FpResult α ε)) = FpResult.Ok [] ∧
      ((∀ r ∈ rs, FpResult.isOk r = true) → FpResult.all rs = FpResult.Ok (oksOf rs)) ∧
      ((∃ r ∈ rs, FpResult.isErr r = true) → FpResult.all rs = FpResult.Err (errsOf rs)) ∧
      FpResult.all ([FpResult.Ok 1, FpResult.Err ("a"), FpResult.Err ("b")] :
        List (FpResult Nat String)) = FpResult.Err ["a", "b"] ∧
      (((FpResult.Ok 1 : FpResult Nat String).flatMap fun _ =>
        FpResult.Err ("a")).flatMap g = FpResult.Err ("a")) := by
  intro rs g
  refine ⟨rfl, ?_, ?_, rfl, rfl⟩
  · intro hall
    have h0 : errsOf rs = [] := (errsOf_eq_nil rs).2 hall
    simp [FpResult.all, collectResults_eq, h0]
  · rintro ⟨r, hr, hre⟩
    have hne : errsOf rs ≠ [] := by
      intro hnil
      have hall := (errsOf_eq_nil rs).1 hnil
      have hok := hall r hr
      cases r with
      | Ok v => simp [FpResult.isErr] at hre
      | Err e => simp [FpResult.isOk] at hok
    cases herr : errsOf rs with
    | nil => exact absurd herr hne
    | cons e es => simp [FpResult.all, collectResults_eq, herr]

/-- Claim C3 witness: `Result.all` on all-Ok inputs collects the values,
and on `[Ok(1), Err("a"), Err("b")]` collects both errors in order. -/
theorem result_all_collects_every_error_witness :
    FpResult.all ([FpResult.Ok 1, FpResult.Ok 2] : List (FpResult Nat String)) =
      FpResult.Ok [1, 2] ∧
    FpResult.all ([FpResult.Ok 1, FpResult.Err ("a"), FpResult.Err ("b")] :
      List (FpResult Nat String)) = FpResult.Err ["a", "b"] := by
  have h1 := (result_all_collects_every_error
    ([FpResult.Ok 1, FpResult.Ok 2] : List (FpResult Nat String))
    (fun _ => FpResult.Ok 0)).2.1 (by decide)
  have h2 := (result_all_collects_every_error
    ([FpResult.Ok 1, FpResult.Err ("a"), FpResult.Err ("b")] : List (FpResult Nat String))
    (fun _ => FpResult.Ok 0)).2.2.1 ⟨FpResult.Err ("a"), by decide, rfl⟩
  exact ⟨h1, h2⟩

/-- Claim C4: `validate` on an `Err` passes the error through untouched
(left summand of the union error type) for every validator list; on
`Ok(v)` it runs every validator, collecting the error of each validator
that returns `Err` in validator order — zero collected errors give back
the original `Ok(v)`, one or more give `Err` of the collected sequence
(always a sequence, even for a single failure). -/
theorem validate_collects_all_validator_errors :
    ∀ (v : α) (e : ε) (vs : List (α → FpResult Bool ε)),
      (FpResult.Err e : FpResult α ε).validate vs = FpResult.Err (Sum.inl e) ∧
      (validatorErrs v vs = [] →
        (FpResult.Ok v : FpResult α ε).validate vs = FpResult.Ok v) ∧
      (validatorErrs v vs ≠ [] →
        (FpResult.Ok v : FpResult α ε).validate vs =
          FpResult.Err (Sum.inr (validatorErrs v vs))) := by
  intro v e vs
  refine ⟨rfl, ?_, ?_⟩
  · intro h
    have h0 : runValidators v vs = [] := by rw [runValidators_eq]; exact h
    simp [FpResult.validate, h0]
  · intro h
    cases herr : validatorErrs v vs with
    | nil => exact absurd herr h
    | cons e0 es =>
      have h0 : runValidators v vs = e0 :: es := by rw [runValidators_eq]; exact herr
      simp [FpResult.validate, h0, herr]

/-- Claim C4 witness: the spec's validator list on `Ok(-5)` collects both
failing messages in validator order, on `Ok(42)` returns the original Ok,
and an `Err` input passes through with no validator run. -/
theorem validate_collects_all_validator_errors_witness :
    (FpResult.Ok (-5 : Int)).validate exampleValidators =
      FpResult.Err (Sum.inr ["must be positive", "must be even"]) ∧
    (FpResult.Ok (42 : Int)).validate exampleValidators = FpResult.Ok 42 ∧
    (FpResult.Err ("init") : FpResult Int String).validate exampleValidators =
      FpResult.Err (Sum.inl ("init")) := by
  have h1 := (validate_collects_all_validator_errors (-5 : Int) ("init")
    exampleValidators).2.2 (by decide)
  have h2 := (validate_collects_all_validator_errors (42 : Int) ("init")
    exampleValidators).2.1 (by decide)
  have h3 := (validate_collects_all_validator_errors (0 : Int) ("init")
    exampleValidators).1
  exact ⟨h1, h2, h3⟩

/-- Claim C5: `zipErr` on `Ok(v)` invokes the binder on `v`: a binder
result `Err(e2)` makes the overall result `Err(e2)`, a binder result `Ok`
keeps the original `Ok(v)` discarding the binder's success payload; on
`Err`, `zipErr` short-circuits to the same `Err` for every binder, which
is therefore never consulted. -/
theorem zipErr_keeps_original_ok :
    ∀ (v : α) (f : α → FpResult β ε) (e e2 : ε) (u : β),
      (f v = FpResult.Err e2 → (FpResult.Ok v : FpResult α ε).zipErr f = FpResult.Err e2) ∧
      (f v = FpResult.Ok u → (FpResult.Ok v : FpResult α ε).zipErr f = FpResult.Ok v) ∧
      (FpResult.Err e : FpResult α ε).zipErr f = FpResult.Err e := by
  intro v f e e2 u
  refine ⟨?_, ?_, rfl⟩
  · intro h; simp [FpResult.zipErr, h]
  · intro h; simp [FpResult.zipErr, h]

/-- Claim C5 witness: the permission-check example — a failing binder
replaces the Ok with its error, a succeeding binder keeps the original Ok
value, and an Err input short-circuits. -/
theorem zipErr_keeps_original_ok_witness :
    (FpResult.Ok 7 : FpResult Nat String).zipErr
      (fun _ => (FpResult.Err ("denied") : FpResult Nat String)) = FpResult.Err ("denied") ∧
    (FpResult.Ok 7 : FpResult Nat String).zipErr
      (fun n => (FpResult.Ok (n + 1) : FpResult Nat String)) = FpResult.Ok 7 ∧
    (FpResult.Err ("network") : FpResult Nat String).zipErr
      (fun _ => (FpResult.Err ("denied") : FpResult Nat String)) = FpResult.Err ("network") := by
  have h1 := zipErr_keeps_original_ok 7
    (fun _ => (FpResult.Err ("denied") : FpResult Nat String)) ("network") ("denied") 0
  have h2 := zipErr_keeps_original_ok 7
    (fun n => (FpResult.Ok (n + 1) : FpResult Nat String)) ("network") ("denied") 8
  exact ⟨h1.1 rfl, h2.2.1 rfl, h1.2.2⟩

/-- Claim C6: `Option.all` returns `Some` of the list of all contained
values exactly when every input is `Some` (a `Some` result forces the
inputs to be exactly those values wrapped in `Some`), returns `None`
whenever a `None` occurs anywhere among the inputs — independently of
every input after the first `None` — and with no inputs returns
`Some([])`. -/
theorem option_all_some_iff_all_inputs_some :
    ∀ (vs : List α) (os l2 : List (FpOption α)) (ws : List α),
      FpOption.all (vs.map FpOption.Some) = FpOption.Some vs ∧
      (FpOption.all os = FpOption.Some ws → os = ws.map FpOption.Some) ∧
      (∀ l1 : List (FpOption α), FpOption.all (l1 ++ FpOption.None :: l2) = FpOption.None) ∧
      FpOption.all ([] : List (FpOption α)) = FpOption.Some [] :=
  fun vs os l2 ws =>
    ⟨option_all_map_some vs, option_all_some_inv os ws,
     fun l1 => option_all_none_mem l1 l2, rfl⟩

/-- Claim C6 witness: `Option.all` on `[Some(1), None, Some(3)]` is `None`,
and a `Some` result forces all inputs to be `Some`. -/
theorem option_all_some_iff_all_inputs_some_witness :
    FpOption.all [FpOption.Some 1, FpOption.None, FpOption.Some 3] = FpOption.None ∧
    [FpOption.Some 1, FpOption.Some 2] = ([1, 2] : List Nat).map FpOption.Some := by
  have h := option_all_some_iff_all_inputs_some ([] : List Nat)
    [FpOption.Some 1, FpOption.Some 2] [FpOption.Some 3] [1, 2]
  exact ⟨h.2.2.1 [FpOption.Some 1], h.2.1 rfl⟩

/-- Claim C7: `Result.any` returns the first `Ok` in input order whenever
one exists (for any all-`Err` prefix and any suffix), otherwise `Err`
collecting every input's error value in input order; in particular
`Result.any(Err(1), Err(2), Err(3))` equals `Err([1,2,3])`. -/
theorem result_any_first_ok_else_all_errors :
    ∀ (es : List ε) (v : α) (l2 : List (FpResult α ε)),
      FpResult.any (es.map FpResult.Err ++ FpResult.Ok v :: l2) = FpResult.Ok v ∧
      FpResult.any (es.map FpResult.Err) = (FpResult.Err es : FpResult α (List ε)) ∧
      FpResult.any ([FpResult.Err 1, FpResult.Err 2, FpResult.Err 3] :
        List (FpResult Nat Nat)) = FpResult.Err [1, 2, 3] :=
  fun es v l2 => ⟨result_any_skips_err_run es v l2, result_any_all_err es, rfl⟩

/-- Claim C8: `Result.unwrap` returns the Ok payload on `Ok`; on `Err(e)`
it re-throws `e` directly when `e` is an error-kind value (the host test is
passed in as a predicate), and otherwise fails with an `UnwrappedOkWithErr`
contract-violation wrapper carrying `e`. -/
theorem result_unwrap_rethrows_error_like :
    ∀ (p : ε → Bool) (v : α) (e : ε),
      (FpResult.Ok v : FpResult α ε).unwrap p = Except.ok v ∧
      (p e = true → (FpResult.Err e : FpResult α ε).unwrap p =
        Except.error (UnwrapThrown.rethrown e)) ∧
      (p e = false → (FpResult.Err e : FpResult α ε).unwrap p =
        Except.error (UnwrapThrown.wrapped ContractErrorClass.UnwrappedOkWithErr e)) := by
  intro p v e
  refine ⟨rfl, ?_, ?_⟩
  · intro h; simp [FpResult.unwrap, h]
  · intro h; simp [FpResult.unwrap, h]

/-- Claim C8 witness: with the error-kind test being the identity on
booleans, an error-kind `Err` is re-thrown directly and a non-error-kind
`Err` is wrapped in `UnwrappedOkWithErr` carrying it. -/
theorem result_unwrap_rethrows_error_like_witness :
    (FpResult.Ok 42 : FpResult Nat Bool).unwrap (fun b => b) = Except.ok 42 ∧
    (FpResult.Err true : FpResult Nat Bool).unwrap (fun b => b) =
      Except.error (UnwrapThrown.rethrown true) ∧
    (FpResult.Err false : FpResult Nat Bool).unwrap (fun b => b) =
      Except.error (UnwrapThrown.wrapped ContractErrorClass.UnwrappedOkWithErr false) := by
  have h1 := result_unwrap_rethrows_error_like (fun b : Bool => b) (42 : Nat) true
  have h2 := result_unwrap_rethrows_error_like (fun b : Bool => b) (42 : Nat) false
  exact ⟨h1.1, h1.2.1 rfl, h2.2.2 rfl⟩

/-- Claim C9: converting an Option to a Result and back is the identity on
the Option — `Some(v).toResult(e).toOption() = Some(v)` and
`None.toResult(e).toOption() = None` — with `toResult` mapping `Some(v)`
to `Ok(v)` and `None` to `Err(e)`, and `toOption` mapping `Ok(v)` to
`Some(v)` and any `Err` to `None`. -/
theorem option_result_round_trip :
    ∀ (v : α) (e : ε),
      ((FpOption.Some v).toResult e).toOption = FpOption.Some v ∧
      ((FpOption.None : FpOption α).toResult e).toOption = FpOption.None ∧
      (FpOption.Some v).toResult e = FpResult.Ok v ∧
      (FpOption.None : FpOption α).toResult e = FpResult.Err e ∧
      (FpResult.Ok v : FpResult α ε).toOption = FpOption.Some v ∧
      ∀ e2 : ε, (FpResult.Err e2 : FpResult α ε).toOption = FpOption.None :=
  fun _ _ => ⟨rfl, rfl, rfl, rfl, rfl, fun _ => rfl⟩

/-- Claim C10: `matchPartial` applies the handler matching the Result's
variant when that handler is provided and returns its result, and returns
the default thunk's value when no handler for the variant is provided; in
particular `Ok(42).matchPartial({Ok: v => v*2}, () => 0) = 84` and
`Err("fail").matchPartial({Ok: v => v*2}, () => 0) = 0`. -/
theorem matchPartial_uses_handler_or_default :
    ∀ (v : α) (e : ε) (f : α → β) (g : ε → β)
      (ho : Option (α → β)) (he : Option (ε → β)) (d : Unit → β),
      (FpResult.Ok v : FpResult α ε).matchPartial ⟨some f, he⟩ d = f v ∧
      (FpResult.Ok v : FpResult α ε).matchPartial ⟨none, he⟩ d = d () ∧
      (FpResult.Err e : FpResult α ε).matchPartial ⟨ho, some g⟩ d = g e ∧
      (FpResult.Err e : FpResult α ε).matchPartial ⟨ho, none⟩ d = d () ∧
      (FpResult.Ok 42 : FpResult Nat String).matchPartial
        ⟨some (fun x => x * 2), none⟩ (fun _ => 0) = 84 ∧
      (FpResult.Err ("fail") : FpResult Nat String).matchPartial
        ⟨some (fun x => x * 2), none⟩ (fun _ => 0) = 0 :=
  fun _ _ _ _ _ _ _ => ⟨rfl, rfl, rfl, rfl, rfl, rfl⟩
